import Mathlib

/-!
# A TTL-bounded in-memory key/value store

Embedding of `server/domain`, `server/storage/in_memory_store.go`,
`server/store_service/use_cases.go` and `server/adapters`.

Conventions of the embedding:

* a `time.Time` is an integer count of nanoseconds from the zero instant, so
  `IsZero` is `t = 0`, `Before` is `<` and `Add` is `+`; a `time.Duration` is a
  (possibly negative) integer;
* every operation receives the reading of `time.Now()` as its argument `now`
  and returns its Go result together with the store it leaves behind;
* a Go `(value, error)` result is an `Except`: the zero value that goes with
  a non-nil error is not represented;
* the Go map `map[string]*Entry` is an association list read through
  `mapLookup`; entries are held by value, which agrees with the pointers of
  the source as long as no entry is bound to two keys (the service only ever
  binds an entry to the key it was read from or created for);
* the lock, the ticker and the stop channel of `Data` are scheduling matters:
  one tick of the sweep is the function `Data.invalidate`.
-/

namespace DataStore

/-! ## domain/error_types.go -/

/-- The six sentinel errors of the domain package. -/
inductive Sentinel where
  | ErrNotFound
  | ErrWrongType
  | ErrEmptyEntry
  | ErrEmptyKey
  | ErrEmptyValue
  | ErrExpiredEntry
  deriving DecidableEq, Repr

/-- An error value: a sentinel, the result of
`fmt.Errorf(head ++ "%q: %w", key, inner)`, which keeps `inner` reachable
through `Unwrap`, or an error made outside the domain package (`other`),
which is none of the sentinels and unwraps to nothing. -/
inductive Error where
  | sentinel (s : Sentinel)
  | wrapf (head : String) (key : String) (inner : Error)
  | other (msg : String)
  deriving DecidableEq, Repr

/-- The test `errors.Is(err, target)` for a sentinel target: the chain of
`Unwrap` is followed until the sentinel is met. -/
def errorsIs : Error → Sentinel → Bool
  | .sentinel s, target => decide (s = target)
  | .wrapf _ _ inner, target => errorsIs inner target
  | .other _, _ => false

deriving instance DecidableEq for Except

/-! ## domain/model.go -/

abbrev Time := Int

abbrev Duration := Int

/-- The method `Time.IsZero`. -/
def IsZero (t : Time) : Bool := decide (t = 0)

/-- The method `Time.Before`. -/
def Before (t u : Time) : Bool := decide (t < u)

/-- The method `Time.Add`. -/
def Add (t : Time) (d : Duration) : Time := t + d

/-- The enumeration `ValueType`. -/
inductive ValueType where
  | TypeString
  | TypeList
  deriving DecidableEq, Repr

/-- Entry holds data and an expiry timestamp (the field `Type` of the source
is `Typ` here). -/
structure Entry where
  Typ : ValueType
  Str : String
  Items : List String
  Expiry : Time
  deriving DecidableEq, Repr

/-- NewStringEntry creates a string entry that expires after `expiry`. -/
def NewStringEntry (now : Time) (str : String) (expiry : Duration) : Entry :=
  { Typ := .TypeString, Str := str, Items := [], Expiry := Add now expiry }

/-- NewListEntry creates a list entry initialised with a copy of `items`. -/
def NewListEntry (now : Time) (items : List String) (expiry : Duration) : Entry :=
  { Typ := .TypeList, Str := "", Items := [] ++ items, Expiry := Add now expiry }

/-! ## The Go map -/

abbrev GoMap := List (String × Entry)

/-- The read `m[key]`, with its `ok` flag as the option. -/
def mapLookup : GoMap → String → Option Entry
  | [], _ => none
  | (k, e) :: rest, key => if k = key then some e else mapLookup rest key

/-- The statement `delete(m, key)`. -/
def mapDelete : GoMap → String → GoMap
  | [], _ => []
  | (k, e) :: rest, key => if k = key then mapDelete rest key else (k, e) :: mapDelete rest key

/-- The assignment `m[key] = entry`. -/
def mapAssign (m : GoMap) (key : String) (entry : Entry) : GoMap :=
  (key, entry) :: mapDelete m key

/-- The keys a `range` over the map visits. -/
def mapKeys (m : GoMap) : List String := m.map Prod.fst

/-! ## storage/in_memory_store.go -/

/-- Data is the in-memory repository. -/
structure Data where
  data : GoMap
  deriving DecidableEq, Repr

/-- Get retrieves an entry by key. -/
def Data.Get (d : Data) (now : Time) (key : String) : Except Error Entry × Data :=
  match mapLookup d.data key with
  | none => (.error (.sentinel .ErrNotFound), d)
  | some entry =>
    if !IsZero entry.Expiry && !Before now entry.Expiry then
      (.error (.sentinel .ErrExpiredEntry), d)
    else
      (.ok entry, d)

/-- Set inserts or updates an entry; `none` is the nil entry. -/
def Data.Set (d : Data) (key : String) (entry : Option Entry) : Except Error Unit × Data :=
  if key = "" then
    (.error (.sentinel .ErrEmptyKey), d)
  else
    match entry with
    | none => (.error (.sentinel .ErrEmptyEntry), d)
    | some e => (.ok (), { d with data := mapAssign d.data key e })

/-- Remove deletes the entry for the given key. -/
def Data.Remove (d : Data) (key : String) : Except Error Unit × Data :=
  if key = "" then
    (.error (.sentinel .ErrEmptyKey), d)
  else
    (.ok (), { d with data := mapDelete d.data key })

/-- The body of the `range` loop of the sweep, at key `k`: the entry bound to
`k` is deleted when its expiry is set and not after the tick time. -/
def invalidateStep (now : Time) (m : GoMap) (k : String) : GoMap :=
  match mapLookup m k with
  | none => m
  | some entry =>
    if !IsZero entry.Expiry && !Before now entry.Expiry then mapDelete m k else m

/-- One tick of `invalidate`, received at time `now`: the loop over the keys
of the map. -/
def Data.invalidate (d : Data) (now : Time) : Data :=
  { d with data := (mapKeys d.data).foldl (invalidateStep now) d.data }

/-! ## store_service/use_cases.go -/

/-- StoreService implements the business logic over the in-memory
repository. -/
structure StoreService where
  defaultTTL : Duration
  deriving DecidableEq, Repr

/-- SetString validates inputs and stores a string. -/
def StoreService.SetString (s : StoreService) (d : Data) (now : Time)
    (key value : String) (ttl : Duration) : Except Error Unit × Data :=
  if key = "" then
    (.error (.wrapf "SetString: " key (.sentinel .ErrEmptyKey)), d)
  else if value = "" then
    (.error (.wrapf "SetString " key (.sentinel .ErrEmptyValue)), d)
  else
    let expiry := if ttl = 0 then s.defaultTTL else ttl
    let entry := NewStringEntry now value expiry
    match d.Set key (some entry) with
    | (.error err, d1) => (.error (.wrapf "SetString " key err), d1)
    | (.ok _, d1) => (.ok (), d1)

/-- GetString retrieves a string, erroring on missing/expired/wrong type. -/
def StoreService.GetString (_s : StoreService) (d : Data) (now : Time)
    (key : String) : Except Error String × Data :=
  if key = "" then
    (.error (.wrapf "GetString: " key (.sentinel .ErrEmptyKey)), d)
  else
    match d.Get now key with
    | (.error err, d1) => (.error (.wrapf "GetString " key err), d1)
    | (.ok entry, d1) =>
      if entry.Typ ≠ .TypeString then
        (.error (.wrapf "GetString: " key (.sentinel .ErrWrongType)), d1)
      else
        (.ok entry.Str, d1)

/-- DeleteString removes a key. -/
def StoreService.DeleteString (_s : StoreService) (d : Data) (key : String) :
    Except Error Unit × Data :=
  if key = "" then
    (.error (.wrapf "DeleteString: " key (.sentinel .ErrEmptyKey)), d)
  else
    match d.Remove key with
    | (.error err, d1) => (.error (.wrapf "DeleteString: " key err), d1)
    | (.ok _, d1) => (.ok (), d1)

/-- The write-back that ends LPush. -/
def StoreService.lpushSet (d : Data) (key : String) (existingList : Entry) :
    Except Error Unit × Data :=
  match d.Set key (some existingList) with
  | (.error err, d2) => (.error (.wrapf "LPush " key err), d2)
  | (.ok _, d2) => (.ok (), d2)

/-- LPush pushes items onto list head. -/
def StoreService.LPush (s : StoreService) (d : Data) (now : Time)
    (key : String) (items : List String) : Except Error Unit × Data :=
  if key = "" then
    (.error (.wrapf "LPush: " key (.sentinel .ErrEmptyKey)), d)
  else
    match d.Get now key with
    | (.error err, d1) =>
      if errorsIs err .ErrNotFound then
        StoreService.lpushSet d1 key (NewListEntry now items s.defaultTTL)
      else
        (.error (.wrapf "LPush: " key err), d1)
    | (.ok existingList, d1) =>
      if existingList.Typ ≠ .TypeList then
        (.error (.wrapf "LPush: " key (.sentinel .ErrWrongType)), d1)
      else
        StoreService.lpushSet d1 key
          { existingList with Items := items ++ existingList.Items }

/-- RPop pops an item from list tail. -/
def StoreService.RPop (_s : StoreService) (d : Data) (now : Time)
    (key : String) : Except Error String × Data :=
  if key = "" then
    (.error (.wrapf "RPop: " key (.sentinel .ErrEmptyKey)), d)
  else
    match d.Get now key with
    | (.error err, d1) => (.error (.wrapf "RPop " key err), d1)
    | (.ok existingList, d1) =>
      if existingList.Typ ≠ .TypeList then
        (.error (.wrapf "RPop: " key (.sentinel .ErrWrongType)), d1)
      else
        let n := existingList.Items.length
        if n = 0 then
          (.error (.sentinel .ErrEmptyEntry), d1)
        else
          let value := existingList.Items.getD (n - 1) ""
          match d1.Set key (some { existingList with Items := existingList.Items.take (n - 1) }) with
          | (.error err, d2) => (.error (.wrapf "RPop: " key err), d2)
          | (.ok _, d2) => (.ok value, d2)

/-! ## Sequences of calls -/

/-- One call on the store: a service operation with its arguments, or one
tick of the sweep. -/
inductive Call where
  | setString (key value : String) (ttl : Duration)
  | getString (key : String)
  | deleteString (key : String)
  | lpush (key : String) (items : List String)
  | rpop (key : String)
  | sweep
  deriving DecidableEq, Repr

/-- The store a call leaves behind when it runs at time `now`. -/
def Call.run (s : StoreService) (d : Data) (now : Time) : Call → Data
  | .setString key value ttl => (s.SetString d now key value ttl).2
  | .getString key => (s.GetString d now key).2
  | .deleteString key => (s.DeleteString d key).2
  | .lpush key items => (s.LPush d now key items).2
  | .rpop key => (s.RPop d now key).2
  | .sweep => d.invalidate now

/-- The call is a service write addressed to key `k`. -/
def Call.writes (k : String) : Call → Bool
  | .setString key _ _ => decide (key = k)
  | .getString _ => false
  | .deleteString key => decide (key = k)
  | .lpush key _ => decide (key = k)
  | .rpop key => decide (key = k)
  | .sweep => false

/-- The call is a tick of the sweep. -/
def Call.isSweep : Call → Bool
  | .sweep => true
  | _ => false

/-- The store left by a sequence of timed calls, run in order. -/
def runCalls (s : StoreService) (d : Data) (tr : List (Time × Call)) : Data :=
  tr.foldl (fun acc p => p.2.run s acc p.1) d

/-- Successive RPop calls on `k`: before the pop at time `p.2` the calls of
`p.1` run; the results are collected in order. -/
def popEach (s : StoreService) (k : String) :
    Data → List (List (Time × Call) × Time) → List (Except Error String) × Data
  | d, [] => ([], d)
  | d, (tr, t) :: rest =>
    let r := s.RPop (runCalls s d tr) t k
    let rs := popEach s k r.2 rest
    (r.1 :: rs.1, rs.2)

/-- The result is a failure whose error matches the sentinel under
`errors.Is`. -/
def failsWith {α : Type} (r : Except Error α) (target : Sentinel) : Bool :=
  match r with
  | .error err => errorsIs err target
  | .ok _ => false

/-! ## adapters/error_types.go -/

/-- The adapter's test that an error is one of the six domain errors, each
tried with `errors.Is`. -/
def isClientError (err : Error) : Bool :=
  if errorsIs err .ErrEmptyKey || errorsIs err .ErrEmptyValue ||
      errorsIs err .ErrNotFound || errorsIs err .ErrWrongType ||
      errorsIs err .ErrEmptyEntry || errorsIs err .ErrExpiredEntry then
    true
  else
    false

/-! ## adapters: responses and handlers -/

/-- The text of a JSON error message: a literal of the handler, or the
`Error()` text of an error value. -/
inductive Message where
  | literal (text : String)
  | ofError (err : Error)
  deriving DecidableEq, Repr

/-- What a handler writes as the body of its response. -/
inductive Body where
  | empty
  | errorJSON (code : Nat) (message : Message)
  | valueJSON (value : String)
  | text (content : String)
  deriving DecidableEq, Repr

/-- The response a handler leaves in the `http.ResponseWriter`. -/
structure Response where
  status : Nat
  headers : List (String × String)
  body : Body
  deriving DecidableEq, Repr

/-- writeErrorJSON writes a JSON error response. -/
def writeErrorJSON (status : Nat) (msg : Message) : Response :=
  { status := status, headers := [("Content-Type", "application/json")],
    body := .errorJSON status msg }

/-- The reply every handler gives to a failed service call: status 400,
raised to 500 when the error is not a client error. -/
def failureResponse (err : Error) : Response :=
  let status := if !isClientError err then 500 else 400
  writeErrorJSON status (.ofError err)

/-- The conversion of an integer to `int64`, wrapping around. -/
def toInt64 (x : Int) : Int := (x + 2 ^ 63) % 2 ^ 64 - 2 ^ 63

/-- The JSON body of POST /v1/string/key, decoded. -/
structure stringRequest where
  Value : String
  TTLSeconds : Int
  deriving DecidableEq, Repr

/-- Handlers holds the use-case service. -/
structure Handlers where
  storeService : StoreService
  deriving DecidableEq, Repr

/-- The handler of POST /v1/string/key; `body` is `none` when the request
body does not decode. -/
def Handlers.setString (h : Handlers) (d : Data) (now : Time) (key : String)
    (body : Option stringRequest) : Response × Data :=
  if key = "" then
    (writeErrorJSON 400 (.literal "invalid key"), d)
  else
    match body with
    | none => (writeErrorJSON 400 (.literal "invalid JSON"), d)
    | some body =>
      let ttl := toInt64 (toInt64 body.TTLSeconds * 1000000000)
      match h.storeService.SetString d now key body.Value ttl with
      | (.error err, d1) => (failureResponse err, d1)
      | (.ok _, d1) => ({ status := 200, headers := [], body := .empty }, d1)

/-- The handler of GET /v1/string/key. -/
def Handlers.getString (h : Handlers) (d : Data) (now : Time) (key : String) :
    Response × Data :=
  if key = "" then
    (writeErrorJSON 400 (.literal "invalid key"), d)
  else
    match h.storeService.GetString d now key with
    | (.error err, d1) => (failureResponse err, d1)
    | (.ok value, d1) =>
      ({ status := 200, headers := [("Content-Type", "application/json")],
         body := .valueJSON value }, d1)

/-- The handler of DELETE /v1/string/key. -/
def Handlers.deleteString (h : Handlers) (d : Data) (key : String) : Response × Data :=
  if key = "" then
    (writeErrorJSON 400 (.literal "invalid key"), d)
  else
    match h.storeService.DeleteString d key with
    | (.error err, d1) => (failureResponse err, d1)
    | (.ok _, d1) => ({ status := 200, headers := [], body := .empty }, d1)

/-- The cut of a text at its first space: what comes before it and what comes
after it; `none` when the text has no space. -/
def cutAtSpace : List Char → Option (List Char × List Char)
  | [] => none
  | c :: cs =>
    if c = Char.ofNat 32 then some ([], cs)
    else (cutAtSpace cs).map (fun p => (c :: p.1, p.2))

/-- The library call `strings.SplitN(s, " ", 2)`: the text itself when it has
no space, else its two parts around the first space. -/
def SplitN2 (s : String) : List String :=
  match cutAtSpace s.data with
  | none => [s]
  | some (a, b) => [String.mk a, String.mk b]

/-- What the middleware does with a request: it calls the wrapped handler,
or it replies itself. -/
inductive Served where
  | next
  | reply (resp : Response)
  deriving DecidableEq, Repr

/-- TokenAuth, applied to the value `auth` of the Authorization header (the
empty text when the header is absent). -/
def TokenAuth (expectedToken : String) (auth : String) : Served :=
  let parts := SplitN2 auth
  if parts.length ≠ 2 ∨ parts.getD 0 "" ≠ "Bearer" ∨ parts.getD 1 "" ≠ expectedToken then
    .reply { status := 401,
             headers := [("WWW-Authenticate", "Bearer realm=\"restricted\""),
                         ("Content-Type", "text/plain; charset=utf-8"),
                         ("X-Content-Type-Options", "nosniff")],
             body := .text "unauthorized\n" }
  else
    .next

/-- The error is the product of a `fmt.Errorf` of the operation `op` on
`key`: its text opens with the operation name, quotes the key and wraps an
inner error. -/
def wrapsFor (op key : String) : Error → Bool
  | .wrapf head k _ =>
    (decide (head = op ++ ": ") || decide (head = op ++ " ")) && decide (k = key)
  | _ => false

/-! ## Reading the map after a write -/

/-- An entry is live at `now` when its expiry is unset or still ahead. -/
def Live (e : Entry) (now : Time) : Prop := e.Expiry = 0 ∨ now < e.Expiry

instance (e : Entry) (now : Time) : Decidable (Live e now) := by
  unfold Live; infer_instance

theorem mapLookup_mapDelete_self (m : GoMap) (k : String) :
    mapLookup (mapDelete m k) k = none := by
  induction m with
  | nil => rfl
  | cons p rest ih =>
    obtain ⟨k0, e0⟩ := p
    by_cases h : k0 = k
    · simp [mapDelete, h, ih]
    · simp [mapDelete, mapLookup, h, ih]

theorem mapLookup_mapDelete_ne (m : GoMap) {k k1 : String} (hne : k1 ≠ k) :
    mapLookup (mapDelete m k) k1 = mapLookup m k1 := by
  induction m with
  | nil => rfl
  | cons p rest ih =>
    obtain ⟨k0, e0⟩ := p
    by_cases h : k0 = k
    · subst h
      have h1 : ¬ k0 = k1 := fun h2 => hne h2.symm
      simp [mapDelete, mapLookup, h1, ih]
    · by_cases h1 : k0 = k1
      · subst h1
        simp [mapDelete, mapLookup, h]
      · simp [mapDelete, mapLookup, h, h1, ih]

theorem mapLookup_mapAssign_self (m : GoMap) (k : String) (e : Entry) :
    mapLookup (mapAssign m k e) k = some e := by
  simp [mapAssign, mapLookup]

theorem mapLookup_mapAssign_ne (m : GoMap) {k k1 : String} (e : Entry) (hne : k1 ≠ k) :
    mapLookup (mapAssign m k e) k1 = mapLookup m k1 := by
  have h1 : ¬ k = k1 := fun h2 => hne h2.symm
  simp [mapAssign, mapLookup, h1, mapLookup_mapDelete_ne m hne]

theorem get_of_absent (d : Data) (now : Time) (k : String)
    (h : mapLookup d.data k = none) :
    d.Get now k = (.error (.sentinel .ErrNotFound), d) := by
  simp [Data.Get, h]

theorem get_of_live (d : Data) (now : Time) (k : String) (e : Entry)
    (h : mapLookup d.data k = some e) (hl : Live e now) :
    d.Get now k = (.ok e, d) := by
  have hc : ¬ (¬ e.Expiry = 0 ∧ e.Expiry ≤ now) := by
    rintro ⟨h0, h1⟩
    rcases hl with hl | hl
    · exact h0 hl
    · exact absurd hl (not_lt.mpr h1)
  simp [Data.Get, h, IsZero, Before, hc]

theorem get_of_expired (d : Data) (now : Time) (k : String) (e : Entry)
    (h : mapLookup d.data k = some e) (h0 : e.Expiry ≠ 0) (h1 : e.Expiry ≤ now) :
    d.Get now k = (.error (.sentinel .ErrExpiredEntry), d) := by
  simp [Data.Get, h, IsZero, Before, h0, h1]

theorem set_of_nonempty (d : Data) (k : String) (e : Entry) (hk : k ≠ "") :
    d.Set k (some e) = (.ok (), ⟨mapAssign d.data k e⟩) := by
  simp [Data.Set, hk]

/-! ## The sweep -/

theorem liveb_iff (e : Entry) (now : Time) :
    (!IsZero e.Expiry && !Before now e.Expiry) = !decide (Live e now) := by
  by_cases h0 : e.Expiry = 0 <;> by_cases h1 : now < e.Expiry <;>
    simp [IsZero, Before, Live, h0, h1]

theorem invalidateStep_self (now : Time) (m : GoMap) (k : String) :
    mapLookup (invalidateStep now m k) k =
      (mapLookup m k).filter (fun e => decide (Live e now)) := by
  unfold invalidateStep
  cases h : mapLookup m k with
  | none => simp [h]
  | some e =>
    by_cases hl : Live e now
    · simp [liveb_iff, hl, h, Option.filter]
    · simp [liveb_iff, hl, Option.filter, mapLookup_mapDelete_self]

theorem invalidateStep_ne (now : Time) (m : GoMap) {k k1 : String} (hne : k1 ≠ k) :
    mapLookup (invalidateStep now m k) k1 = mapLookup m k1 := by
  unfold invalidateStep
  cases h : mapLookup m k with
  | none => rfl
  | some e =>
    by_cases hl : Live e now
    · simp [liveb_iff, hl]
    · simp [liveb_iff, hl, mapLookup_mapDelete_ne m hne]

theorem filter_live_idem (o : Option Entry) (now : Time) :
    (o.filter (fun e => decide (Live e now))).filter (fun e => decide (Live e now)) =
      o.filter (fun e => decide (Live e now)) := by
  cases o with
  | none => rfl
  | some e => by_cases hl : Live e now <;> simp [Option.filter, hl]

theorem mapLookup_foldl_invalidateStep (now : Time) (k : String) (ks : List String) :
    ∀ m : GoMap, mapLookup (ks.foldl (invalidateStep now) m) k =
      if k ∈ ks then (mapLookup m k).filter (fun e => decide (Live e now))
      else mapLookup m k := by
  induction ks with
  | nil => intro m; simp
  | cons k0 rest ih =>
    intro m
    rw [List.foldl_cons, ih]
    by_cases h0 : k0 = k
    · subst h0
      by_cases hr : k0 ∈ rest
      · simp [hr, invalidateStep_self, filter_live_idem]
      · simp [hr, invalidateStep_self]
    · have hne : k ≠ k0 := fun h => h0 h.symm
      by_cases hr : k ∈ rest
      · simp [hr, invalidateStep_ne now m hne]
      · simp [hr, hne, invalidateStep_ne now m hne]

theorem mem_mapKeys_of_mapLookup (m : GoMap) (k : String) (e : Entry)
    (h : mapLookup m k = some e) : k ∈ mapKeys m := by
  induction m with
  | nil => simp [mapLookup] at h
  | cons p rest ih =>
    obtain ⟨k0, e0⟩ := p
    by_cases h0 : k0 = k
    · simp [mapKeys, h0]
    · simp only [mapLookup, if_neg h0] at h
      have := ih h
      simp only [mapKeys] at this ⊢
      exact List.mem_cons_of_mem _ this

theorem mapLookup_invalidate (d : Data) (now : Time) (k : String) :
    mapLookup (d.invalidate now).data k =
      (mapLookup d.data k).filter (fun e => decide (Live e now)) := by
  simp only [Data.invalidate, mapLookup_foldl_invalidateStep]
  cases h : mapLookup d.data k with
  | none => simp [Option.filter]
  | some e => simp [mem_mapKeys_of_mapLookup d.data k e h]

/-! ## What a call leaves untouched -/

theorem getString_state (s : StoreService) (d : Data) (now : Time) (key : String) :
    (s.GetString d now key).2 = d := by
  unfold StoreService.GetString Data.Get
  by_cases hk : key = ""
  · simp [hk]
  · cases h : mapLookup d.data key with
    | none => simp [hk]
    | some e =>
      by_cases hl : Live e now <;> by_cases ht : e.Typ = .TypeString <;>
        simp [hk, liveb_iff, hl, ht]

theorem setString_frame (s : StoreService) (d : Data) (now : Time) (key value : String)
    (ttl : Duration) {k : String} (hne : k ≠ key) :
    mapLookup (s.SetString d now key value ttl).2.data k = mapLookup d.data k := by
  unfold StoreService.SetString Data.Set
  by_cases hk : key = ""
  · simp [hk]
  · by_cases hv : value = ""
    · simp [hk, hv]
    · simp [hk, hv, mapLookup_mapAssign_ne d.data _ hne]

theorem deleteString_frame (s : StoreService) (d : Data) (key : String) {k : String}
    (hne : k ≠ key) :
    mapLookup (s.DeleteString d key).2.data k = mapLookup d.data k := by
  unfold StoreService.DeleteString Data.Remove
  by_cases hk : key = ""
  · simp [hk]
  · simp [hk, mapLookup_mapDelete_ne d.data hne]

theorem lpush_frame (s : StoreService) (d : Data) (now : Time) (key : String)
    (items : List String) {k : String} (hne : k ≠ key) :
    mapLookup (s.LPush d now key items).2.data k = mapLookup d.data k := by
  unfold StoreService.LPush StoreService.lpushSet Data.Get Data.Set
  by_cases hk : key = ""
  · simp [hk]
  · cases h : mapLookup d.data key with
    | none => simp [hk, errorsIs, mapLookup_mapAssign_ne d.data _ hne]
    | some e =>
      by_cases hl : Live e now <;> by_cases ht : e.Typ = .TypeList <;>
        simp [hk, liveb_iff, hl, ht, errorsIs, mapLookup_mapAssign_ne d.data _ hne]

theorem rpop_frame (s : StoreService) (d : Data) (now : Time) (key : String) {k : String}
    (hne : k ≠ key) :
    mapLookup (s.RPop d now key).2.data k = mapLookup d.data k := by
  unfold StoreService.RPop Data.Get Data.Set
  by_cases hk : key = ""
  · simp [hk]
  · cases h : mapLookup d.data key with
    | none => simp [hk]
    | some e =>
      by_cases hl : Live e now <;> by_cases ht : e.Typ = .TypeList <;>
        by_cases hn : e.Items = [] <;>
        simp [hk, liveb_iff, hl, ht, hn, mapLookup_mapAssign_ne d.data _ hne]

/-- A call that is not a write to `k` leaves the binding of `k` as it was,
except that a tick removes it when it is no longer live. -/
theorem call_frame (s : StoreService) (d : Data) (now : Time) (c : Call) (k : String)
    (hw : c.writes k = false) :
    mapLookup (c.run s d now).data k =
      (mapLookup d.data k).filter (fun e => !c.isSweep || decide (Live e now)) := by
  have hid : ∀ o : Option Entry, o = o.filter (fun _ => true) := by
    intro o; cases o <;> rfl
  cases c with
  | setString key value ttl =>
    have hne : k ≠ key := fun h => by simp [Call.writes, h] at hw
    simpa [Call.run, Call.isSweep, setString_frame s d now key value ttl hne] using hid _
  | getString key =>
    simpa [Call.run, Call.isSweep, getString_state] using hid _
  | deleteString key =>
    have hne : k ≠ key := fun h => by simp [Call.writes, h] at hw
    simpa [Call.run, Call.isSweep, deleteString_frame s d key hne] using hid _
  | lpush key items =>
    have hne : k ≠ key := fun h => by simp [Call.writes, h] at hw
    simpa [Call.run, Call.isSweep, lpush_frame s d now key items hne] using hid _
  | rpop key =>
    have hne : k ≠ key := fun h => by simp [Call.writes, h] at hw
    simpa [Call.run, Call.isSweep, rpop_frame s d now key hne] using hid _
  | sweep =>
    simp [Call.run, Call.isSweep, mapLookup_invalidate]

/-- Over a sequence of calls none of which writes to `k`, the binding of `k`
survives exactly when it is live at every tick of the sequence. -/
theorem runCalls_frame (s : StoreService) (k : String) (tr : List (Time × Call)) :
    ∀ d : Data, (∀ p ∈ tr, p.2.writes k = false) →
      mapLookup (runCalls s d tr).data k =
        (mapLookup d.data k).filter
          (fun e => tr.all (fun p => !p.2.isSweep || decide (Live e p.1))) := by
  induction tr with
  | nil => intro d _; cases h : mapLookup d.data k <;> simp [runCalls, h, Option.filter]
  | cons p rest ih =>
    intro d hw
    have hp := hw p (List.mem_cons_self _ _)
    have hrest : ∀ q ∈ rest, q.2.writes k = false :=
      fun q hq => hw q (List.mem_cons_of_mem _ hq)
    have h1 := ih (p.2.run s d p.1) hrest
    have h2 := call_frame s d p.1 p.2 k hp
    simp only [runCalls, List.foldl_cons] at h1 ⊢
    rw [h1, h2]
    cases h : mapLookup d.data k with
    | none => simp [Option.filter]
    | some e =>
      by_cases hc : (!p.2.isSweep || decide (Live e p.1)) = true
      · simp only [Option.filter, hc, List.all_cons, if_true, Bool.true_and]
      · have hc1 : (!p.2.isSweep || decide (Live e p.1)) = false := by
          cases hb : (!p.2.isSweep || decide (Live e p.1))
          · rfl
          · exact absurd hb hc
        simp only [Option.filter, List.all_cons, hc1, Bool.false_and]
        simp

/-! ## The outcome of RPop and LPush, by case -/

theorem getD_pred_length (xs : List String) (hne : xs ≠ []) :
    xs.getD (xs.length - 1) "" = xs.getLast hne := by
  have hlen : xs.length ≠ 0 := fun h => hne (List.length_eq_zero.mp h)
  have hlt : xs.length - 1 < xs.length := by omega
  rw [List.getD_eq_getElem?_getD, List.getElem?_eq_getElem hlt, List.getLast_eq_getElem]
  rfl

theorem rpop_of_live_nonempty (s : StoreService) (d : Data) (now : Time) (k str : String)
    (xs : List String) (ex : Time) (hk : k ≠ "")
    (hl : mapLookup d.data k = some ⟨.TypeList, str, xs, ex⟩) (hne : xs ≠ [])
    (hlive : Live ⟨.TypeList, str, xs, ex⟩ now) :
    s.RPop d now k =
      (.ok (xs.getLast hne), ⟨mapAssign d.data k ⟨.TypeList, str, xs.dropLast, ex⟩⟩) := by
  have hg := get_of_live d now k _ hl hlive
  have hs := set_of_nonempty d k ⟨.TypeList, str, xs.take (xs.length - 1), ex⟩ hk
  have hlen : xs.length ≠ 0 := fun h => hne (List.length_eq_zero.mp h)
  simp only [StoreService.RPop, if_neg hk, hg, ne_eq, not_true_eq_false, if_false,
    if_neg hlen, hs, getD_pred_length xs hne, List.dropLast_eq_take]

theorem rpop_of_live_empty (s : StoreService) (d : Data) (now : Time) (k str : String)
    (ex : Time) (hk : k ≠ "")
    (hl : mapLookup d.data k = some ⟨.TypeList, str, [], ex⟩)
    (hlive : Live ⟨.TypeList, str, [], ex⟩ now) :
    s.RPop d now k = (.error (.sentinel .ErrEmptyEntry), d) := by
  have hg := get_of_live d now k _ hl hlive
  simp [StoreService.RPop, hk, hg]

theorem lpush_of_absent (s : StoreService) (d : Data) (now : Time) (k : String)
    (items : List String) (hk : k ≠ "") (habs : mapLookup d.data k = none) :
    s.LPush d now k items =
      (.ok (), ⟨mapAssign d.data k ⟨.TypeList, "", items, now + s.defaultTTL⟩⟩) := by
  have hg := get_of_absent d now k habs
  have hs := set_of_nonempty d k ⟨.TypeList, "", items, now + s.defaultTTL⟩ hk
  simp [StoreService.LPush, hk, hg, errorsIs, StoreService.lpushSet, NewListEntry, Add, hs]

theorem popEach_of_live_list (s : StoreService) (k str : String) (ex : Time) (hk : k ≠ "")
    (sched : List (List (Time × Call) × Time)) :
    ∀ (d : Data) (xs : List String),
      mapLookup d.data k = some ⟨.TypeList, str, xs, ex⟩ →
      sched.length = xs.length + 1 →
      (∀ p ∈ sched, p.2 < ex) →
      (∀ p ∈ sched, ∀ q ∈ p.1, q.2.writes k = false ∧ (q.2.isSweep = true → q.1 < ex)) →
      (popEach s k d sched).1 =
        xs.reverse.map Except.ok ++ [Except.error (Error.sentinel Sentinel.ErrEmptyEntry)] := by
  induction sched with
  | nil => intro d xs _ hlen; simp at hlen
  | cons p rest ih =>
    intro d xs hl hlen hpop hquiet
    obtain ⟨tr, t⟩ := p
    have ht : t < ex := hpop (tr, t) (List.mem_cons_self _ _)
    have hq := hquiet (tr, t) (List.mem_cons_self _ _)
    have hl1 : mapLookup (runCalls s d tr).data k = some ⟨.TypeList, str, xs, ex⟩ := by
      rw [runCalls_frame s k tr d (fun q hq1 => (hq q hq1).1), hl]
      have hall : (tr.all fun q =>
          !q.2.isSweep || decide (Live ⟨.TypeList, str, xs, ex⟩ q.1)) = true := by
        rw [List.all_eq_true]
        intro q hq1
        cases hsw : q.2.isSweep with
        | false => rfl
        | true =>
          have : Live ⟨.TypeList, str, xs, ex⟩ q.1 := Or.inr ((hq q hq1).2 hsw)
          simp [this]
      simp [Option.filter, hall]
    have hlive : Live ⟨.TypeList, str, xs, ex⟩ t := Or.inr ht
    by_cases hne : xs = []
    · subst hne
      have hrest : rest = [] := by
        simp at hlen
        exact hlen
      subst hrest
      simp [popEach, rpop_of_live_empty s _ t k str ex hk hl1 hlive]
    · have hr := rpop_of_live_nonempty s _ t k str xs ex hk hl1 hne hlive
      have hlen1 : rest.length = xs.dropLast.length + 1 := by
        have hpos : xs.length ≠ 0 := fun h => hne (List.length_eq_zero.mp h)
        simp only [List.length_cons, List.length_dropLast] at hlen ⊢
        omega
      have hih := ih ⟨mapAssign (runCalls s d tr).data k ⟨.TypeList, str, xs.dropLast, ex⟩⟩
        xs.dropLast (mapLookup_mapAssign_self _ _ _) hlen1
        (fun q hq1 => hpop q (List.mem_cons_of_mem _ hq1))
        (fun q hq1 => hquiet q (List.mem_cons_of_mem _ hq1))
      simp only [popEach, hr, hih]
      conv_rhs => rw [← List.dropLast_append_getLast hne]
      simp

theorem setString_of_valid (s : StoreService) (d : Data) (now : Time) (k v : String)
    (ttl : Duration) (hk : k ≠ "") (hv : v ≠ "") :
    s.SetString d now k v ttl =
      (.ok (), ⟨mapAssign d.data k
        ⟨.TypeString, v, [], now + (if ttl = 0 then s.defaultTTL else ttl)⟩⟩) := by
  simp [StoreService.SetString, hk, hv, Data.Set, NewStringEntry, Add]

theorem getString_of_absent (s : StoreService) (d : Data) (now : Time) (k : String)
    (hk : k ≠ "") (habs : mapLookup d.data k = none) :
    s.GetString d now k = (.error (.wrapf "GetString " k (.sentinel .ErrNotFound)), d) := by
  simp [StoreService.GetString, hk, get_of_absent d now k habs]

theorem getString_of_expired (s : StoreService) (d : Data) (now : Time) (k : String)
    (e : Entry) (hk : k ≠ "") (h : mapLookup d.data k = some e) (h0 : e.Expiry ≠ 0)
    (h1 : e.Expiry ≤ now) :
    s.GetString d now k =
      (.error (.wrapf "GetString " k (.sentinel .ErrExpiredEntry)), d) := by
  simp [StoreService.GetString, hk, get_of_expired d now k e h h0 h1]

theorem getString_of_live_string (s : StoreService) (d : Data) (now : Time) (k v : String)
    (xs : List String) (ex : Time) (hk : k ≠ "")
    (h : mapLookup d.data k = some ⟨.TypeString, v, xs, ex⟩)
    (hl : Live ⟨.TypeString, v, xs, ex⟩ now) :
    s.GetString d now k = (.ok v, d) := by
  simp [StoreService.GetString, hk, get_of_live d now k _ h hl]

/-! ## LPush and RPop on a live list -/

/-- C1: on a non-empty key holding a live List entry, LPush succeeds and
leaves at that key a List entry whose items are the pushed items, in argument
order, followed by the old items, with the expiry (and everything else of the
entry) as before. -/
theorem lpush_prepends_to_live_list (s : StoreService) (d : Data) (now : Time)
    (k : String) (items : List String) (e : Entry)
    (hk : k ≠ "") (hl : mapLookup d.data k = some e) (ht : e.Typ = .TypeList)
    (hlive : Live e now) :
    (s.LPush d now k items).1 = .ok () ∧
    mapLookup (s.LPush d now k items).2.data k =
      some { Typ := .TypeList, Str := e.Str, Items := items ++ e.Items, Expiry := e.Expiry } := by
  obtain ⟨ty, str, old, ex⟩ := e
  simp only at ht
  subst ht
  have hg := get_of_live d now k _ hl hlive
  have hs := set_of_nonempty d k ⟨.TypeList, str, items ++ old, ex⟩ hk
  simp [StoreService.LPush, hk, hg, StoreService.lpushSet, hs, mapLookup_mapAssign_self]

/-- Pushing "c" onto the live list a, b leaves c, a, b with the expiry kept. -/
theorem lpush_prepends_to_live_list_witness :
    ("new" ≠ "" ∧
      mapLookup (Data.mk [("new", ⟨.TypeList, "", ["a", "b"], 15⟩)]).data "new" =
        some ⟨.TypeList, "", ["a", "b"], 15⟩ ∧
      Live ⟨.TypeList, "", ["a", "b"], 15⟩ 5) ∧
    ((StoreService.mk 10).LPush ⟨[("new", ⟨.TypeList, "", ["a", "b"], 15⟩)]⟩ 5 "new" ["c"]).1
        = .ok () ∧
    mapLookup ((StoreService.mk 10).LPush ⟨[("new", ⟨.TypeList, "", ["a", "b"], 15⟩)]⟩ 5
        "new" ["c"]).2.data "new" = some ⟨.TypeList, "", ["c", "a", "b"], 15⟩ :=
  ⟨by decide, lpush_prepends_to_live_list ⟨10⟩ ⟨[("new", ⟨.TypeList, "", ["a", "b"], 15⟩)]⟩ 5
    "new" ["c"] ⟨.TypeList, "", ["a", "b"], 15⟩ (by decide) (by decide) rfl (by decide)⟩

/-- C2: on a non-empty key holding a live List entry with at least one item,
RPop succeeds with the last item and leaves at that key the same entry without
its last item, the expiry kept. -/
theorem rpop_takes_last_of_live_list (s : StoreService) (d : Data) (now : Time)
    (k : String) (e : Entry)
    (hk : k ≠ "") (hl : mapLookup d.data k = some e) (ht : e.Typ = .TypeList)
    (hne : e.Items ≠ []) (hlive : Live e now) :
    (s.RPop d now k).1 = .ok (e.Items.getLast hne) ∧
    e.Items[e.Items.length - 1]? = some (e.Items.getLast hne) ∧
    mapLookup (s.RPop d now k).2.data k =
      some { Typ := .TypeList, Str := e.Str, Items := e.Items.dropLast, Expiry := e.Expiry } := by
  obtain ⟨ty, str, xs, ex⟩ := e
  simp only at ht hne ⊢
  subst ht
  have hg := get_of_live d now k _ hl hlive
  have hs := set_of_nonempty d k ⟨.TypeList, str, xs.take (xs.length - 1), ex⟩ hk
  have hlen : xs.length ≠ 0 := fun h => hne (List.length_eq_zero.mp h)
  have hlt : xs.length - 1 < xs.length := by omega
  have hidx : xs[xs.length - 1]? = some (xs.getLast hne) := by
    rw [List.getLast_eq_getElem, List.getElem?_eq_getElem hlt]
  have hd : xs.getD (xs.length - 1) "" = xs.getLast hne := by
    rw [List.getD_eq_getElem?_getD, hidx]; rfl
  refine ⟨?_, hidx, ?_⟩
  · simp only [StoreService.RPop, if_neg hk, hg, ne_eq, not_true_eq_false, if_false,
      if_neg hlen, hs, hd]
  · simp only [StoreService.RPop, if_neg hk, hg, ne_eq, not_true_eq_false, if_false,
      if_neg hlen, hs, mapLookup_mapAssign_self, List.dropLast_eq_take]

/-- RPop on the live list c, a, b returns "b" and leaves c, a. -/
theorem rpop_takes_last_of_live_list_witness :
    ((StoreService.mk 10).RPop ⟨[("new", ⟨.TypeList, "", ["c", "a", "b"], 15⟩)]⟩ 5 "new").1
        = .ok "b" ∧
    mapLookup ((StoreService.mk 10).RPop ⟨[("new", ⟨.TypeList, "", ["c", "a", "b"], 15⟩)]⟩ 5
        "new").2.data "new" = some ⟨.TypeList, "", ["c", "a"], 15⟩ :=
  have h := rpop_takes_last_of_live_list ⟨10⟩ ⟨[("new", ⟨.TypeList, "", ["c", "a", "b"], 15⟩)]⟩
    5 "new" ⟨.TypeList, "", ["c", "a", "b"], 15⟩ (by decide) (by decide) rfl (by decide)
    (by decide)
  ⟨h.1, h.2.2⟩

/-! ## LPush on an absent key, and draining what it pushed -/

/-- C8: on a non-empty absent key, LPush at time `now` succeeds and binds the
key to a List entry holding the items in argument order, expiring at `now`
plus the default TTL; every other key keeps its binding. -/
theorem lpush_creates_list_on_absent_key (s : StoreService) (d : Data) (now : Time)
    (k : String) (items : List String) (hk : k ≠ "") (habs : mapLookup d.data k = none) :
    (s.LPush d now k items).1 = .ok () ∧
    mapLookup (s.LPush d now k items).2.data k =
      some { Typ := .TypeList, Str := "", Items := items, Expiry := now + s.defaultTTL } ∧
    ∀ k1 : String, k1 ≠ k →
      mapLookup (s.LPush d now k items).2.data k1 = mapLookup d.data k1 := by
  refine ⟨?_, ?_, fun k1 hne => lpush_frame s d now k items hne⟩
  · rw [lpush_of_absent s d now k items hk habs]
  · rw [lpush_of_absent s d now k items hk habs]
    exact mapLookup_mapAssign_self _ _ _

/-- LPush of a, b on the absent key "new" yields the list a, b. -/
theorem lpush_creates_list_on_absent_key_witness :
    ((StoreService.mk 10).LPush ⟨[("other", ⟨.TypeString, "v", [], 7⟩)]⟩ 5 "new" ["a", "b"]).1
      = .ok () ∧
    mapLookup ((StoreService.mk 10).LPush ⟨[("other", ⟨.TypeString, "v", [], 7⟩)]⟩ 5 "new"
      ["a", "b"]).2.data "new" = some ⟨.TypeList, "", ["a", "b"], 15⟩ :=
  have h := lpush_creates_list_on_absent_key ⟨10⟩ ⟨[("other", ⟨.TypeString, "v", [], 7⟩)]⟩ 5
    "new" ["a", "b"] (by decide) (by decide)
  ⟨h.1, h.2.1⟩

/-- C3: after LPush of an item sequence on a non-empty absent key,
RPop calls made before the expiry of the new entry, with no other write to the
key in between (other calls and ticks of the sweep may run), return the pushed
items in reverse argument order, one per call, and the call after the last
item fails with ErrEmptyEntry. -/
theorem lpush_then_rpops_reverse (s : StoreService) (d : Data) (t0 : Time) (k : String)
    (xs : List String) (sched : List (List (Time × Call) × Time))
    (hk : k ≠ "") (habs : mapLookup d.data k = none)
    (hlen : sched.length = xs.length + 1)
    (hpop : ∀ p ∈ sched, p.2 < t0 + s.defaultTTL)
    (hquiet : ∀ p ∈ sched, ∀ q ∈ p.1,
      q.2.writes k = false ∧ (q.2.isSweep = true → q.1 < t0 + s.defaultTTL)) :
    (s.LPush d t0 k xs).1 = .ok () ∧
    (popEach s k (s.LPush d t0 k xs).2 sched).1 =
      xs.reverse.map Except.ok ++ [Except.error (Error.sentinel Sentinel.ErrEmptyEntry)] := by
  rw [lpush_of_absent s d t0 k xs hk habs]
  exact ⟨rfl, popEach_of_live_list s k "" (t0 + s.defaultTTL) hk sched _ xs
    (mapLookup_mapAssign_self _ _ _) hlen hpop hquiet⟩

/-- After LPush of a, b, c the pops return c, b, a and the fourth pop fails
with ErrEmptyEntry; a tick and a write to another key run in between. -/
theorem lpush_then_rpops_reverse_witness :
    (popEach ⟨1000⟩ "mylist" ((StoreService.mk 1000).LPush ⟨[]⟩ 5 "mylist" ["a", "b", "c"]).2
      [([], 6), ([(7, .sweep)], 8), ([(9, .setString "foo" "bar" 0)], 10), ([], 11)]).1 =
    [.ok "c", .ok "b", .ok "a", .error (.sentinel .ErrEmptyEntry)] :=
  (lpush_then_rpops_reverse ⟨1000⟩ ⟨[]⟩ 5 "mylist" ["a", "b", "c"]
    [([], 6), ([(7, .sweep)], 8), ([(9, .setString "foo" "bar" 0)], 10), ([], 11)]
    (by decide) (by decide) (by decide) (by decide) (by decide)).2

/-! ## Get and the sweep -/

/-- C4: Get is determined by the map and the time. It fails with ErrNotFound
on an absent key, with ErrExpiredEntry on a key whose entry has a non-zero
expiry not after `now`, and returns the stored entry otherwise; the store is
the same afterwards in each case, so a later Get of an expired key fails with
ErrExpiredEntry again. -/
theorem get_determined_by_map_and_time (d : Data) (now : Time) (k : String) :
    (mapLookup d.data k = none → d.Get now k = (.error (.sentinel .ErrNotFound), d)) ∧
    (∀ e, mapLookup d.data k = some e → e.Expiry ≠ 0 → e.Expiry ≤ now →
      d.Get now k = (.error (.sentinel .ErrExpiredEntry), d) ∧
      ∀ later, now ≤ later →
        (d.Get now k).2.Get later k = (.error (.sentinel .ErrExpiredEntry), d)) ∧
    (∀ e, mapLookup d.data k = some e → (e.Expiry = 0 ∨ now < e.Expiry) →
      d.Get now k = (.ok e, d)) := by
  refine ⟨get_of_absent d now k, ?_, fun e h hl => get_of_live d now k e h hl⟩
  intro e h h0 h1
  refine ⟨get_of_expired d now k e h h0 h1, fun later hlater => ?_⟩
  rw [get_of_expired d now k e h h0 h1]
  exact get_of_expired d later k e h h0 (le_trans h1 hlater)

/-- Get at time 15 of an entry expiring at 15 fails with ErrExpiredEntry, and
again at time 20, the map still holding the entry. -/
theorem get_determined_by_map_and_time_witness :
    (Data.mk [("foo", ⟨.TypeString, "bar", [], 15⟩)]).Get 15 "foo" =
      (.error (.sentinel .ErrExpiredEntry), ⟨[("foo", ⟨.TypeString, "bar", [], 15⟩)]⟩) ∧
    ((Data.mk [("foo", ⟨.TypeString, "bar", [], 15⟩)]).Get 15 "foo").2.Get 20 "foo" =
      (.error (.sentinel .ErrExpiredEntry), ⟨[("foo", ⟨.TypeString, "bar", [], 15⟩)]⟩) :=
  have h := (get_determined_by_map_and_time ⟨[("foo", ⟨.TypeString, "bar", [], 15⟩)]⟩ 15
    "foo").2.1 ⟨.TypeString, "bar", [], 15⟩ (by decide) (by decide) (by decide)
  ⟨h.1, h.2 20 (by decide)⟩

/-- C6: one tick of the sweep at time `t` leaves, at every key, the binding
the map had when that entry has a zero expiry or an expiry after `t`, and no
binding otherwise; so once a tick has run at or after a non-zero expiry, Get
of that key fails with ErrNotFound at any time. -/
theorem invalidate_keeps_exactly_live (d : Data) (t : Time) (k : String) :
    mapLookup (d.invalidate t).data k =
      (mapLookup d.data k).filter (fun e => decide (e.Expiry = 0 ∨ t < e.Expiry)) ∧
    (∀ e, mapLookup d.data k = some e → e.Expiry ≠ 0 → e.Expiry ≤ t →
      ∀ now, (d.invalidate t).Get now k =
        (.error (.sentinel .ErrNotFound), d.invalidate t)) := by
  have hmain := mapLookup_invalidate d t k
  refine ⟨hmain, fun e h h0 h1 now => ?_⟩
  apply get_of_absent
  rw [hmain, h]
  have hnl : ¬ Live e t := by
    rintro (hl | hl)
    · exact h0 hl
    · exact absurd hl (not_lt.mpr h1)
  simp [Option.filter, hnl]

/-- A tick at time 15 removes the entry expiring at 15 and keeps the ones
expiring at 16 and never; Get of the removed key then fails with
ErrNotFound. -/
theorem invalidate_keeps_exactly_live_witness :
    (Data.mk [("a", ⟨.TypeString, "x", [], 15⟩), ("b", ⟨.TypeList, "", ["y"], 16⟩),
        ("c", ⟨.TypeString, "z", [], 0⟩)]).invalidate 15 =
      ⟨[("b", ⟨.TypeList, "", ["y"], 16⟩), ("c", ⟨.TypeString, "z", [], 0⟩)]⟩ ∧
    ((Data.mk [("a", ⟨.TypeString, "x", [], 15⟩), ("b", ⟨.TypeList, "", ["y"], 16⟩),
        ("c", ⟨.TypeString, "z", [], 0⟩)]).invalidate 15).Get 3 "a" =
      (.error (.sentinel .ErrNotFound),
        (Data.mk [("a", ⟨.TypeString, "x", [], 15⟩), ("b", ⟨.TypeList, "", ["y"], 16⟩),
          ("c", ⟨.TypeString, "z", [], 0⟩)]).invalidate 15) :=
  ⟨by decide,
    (invalidate_keeps_exactly_live ⟨[("a", ⟨.TypeString, "x", [], 15⟩),
      ("b", ⟨.TypeList, "", ["y"], 16⟩), ("c", ⟨.TypeString, "z", [], 0⟩)]⟩ 15 "a").2
      ⟨.TypeString, "x", [], 15⟩ (by decide) (by decide) (by decide) 3⟩

/-! ## SetString -/

/-- C10: on a non-empty key and a non-empty value, SetString at time `t`
succeeds whatever the store held, and binds the key to a String entry with
that value, no items, and expiry `t + ttl`, or `t` plus the default TTL when
`ttl` is zero; the new entry does not depend on the store before, and every
other key keeps its binding. -/
theorem setString_overwrites (s : StoreService) (d : Data) (t : Time) (k v : String)
    (ttl : Duration) (hk : k ≠ "") (hv : v ≠ "") :
    (s.SetString d t k v ttl).1 = .ok () ∧
    mapLookup (s.SetString d t k v ttl).2.data k =
      some { Typ := .TypeString, Str := v, Items := [],
             Expiry := if ttl = 0 then t + s.defaultTTL else t + ttl } ∧
    ∀ k1 : String, k1 ≠ k →
      mapLookup (s.SetString d t k v ttl).2.data k1 = mapLookup d.data k1 := by
  refine ⟨?_, ?_, fun k1 hne => setString_frame s d t k v ttl hne⟩
  · rw [setString_of_valid s d t k v ttl hk hv]
  · rw [setString_of_valid s d t k v ttl hk hv, mapLookup_mapAssign_self]
    by_cases h0 : ttl = 0 <;> simp [h0]

/-- SetString with ttl 0 over an expired list at the same key stores a String
entry expiring after the default TTL and leaves the other key alone. -/
theorem setString_overwrites_witness :
    mapLookup ((StoreService.mk 10).SetString
      ⟨[("k", ⟨.TypeList, "", ["a"], 3⟩), ("o", ⟨.TypeString, "w", [], 50⟩)]⟩ 5 "k" "v" 0).2.data
      "k" = some ⟨.TypeString, "v", [], 15⟩ ∧
    mapLookup ((StoreService.mk 10).SetString
      ⟨[("k", ⟨.TypeList, "", ["a"], 3⟩), ("o", ⟨.TypeString, "w", [], 50⟩)]⟩ 5 "k" "v" 0).2.data
      "o" = some ⟨.TypeString, "w", [], 50⟩ :=
  have h := setString_overwrites ⟨10⟩
    ⟨[("k", ⟨.TypeList, "", ["a"], 3⟩), ("o", ⟨.TypeString, "w", [], 50⟩)]⟩ 5 "k" "v" 0
    (by decide) (by decide)
  ⟨h.2.1, h.2.2 "o" (by decide)⟩

/-- C5: SetString of a non-empty value on a non-empty key with a positive
ttl at clock reading `t0` (not before the zero instant), followed by calls
none of which writes to the key and by GetString at `t1`: the read returns
the value when `t1` is before `t0 + ttl`; from `t0 + ttl` on it fails, with
ErrExpiredEntry when every tick of the sweep in between came before
`t0 + ttl`, and with ErrNotFound when one came at or after it. -/
theorem setString_then_getString (s : StoreService) (d : Data) (k v : String)
    (ttl : Duration) (t0 t1 : Time) (tr : List (Time × Call))
    (hk : k ≠ "") (hv : v ≠ "") (httl : 0 < ttl) (hclock : 0 ≤ t0)
    (hquiet : ∀ q ∈ tr, q.2.writes k = false) (htime : ∀ q ∈ tr, q.1 ≤ t1) :
    (s.SetString d t0 k v ttl).1 = .ok () ∧
    (t1 < t0 + ttl →
      (s.GetString (runCalls s (s.SetString d t0 k v ttl).2 tr) t1 k).1 = .ok v) ∧
    (t0 + ttl ≤ t1 → (∀ q ∈ tr, q.2.isSweep = true → q.1 < t0 + ttl) →
      (s.GetString (runCalls s (s.SetString d t0 k v ttl).2 tr) t1 k).1 =
        .error (.wrapf "GetString " k (.sentinel .ErrExpiredEntry))) ∧
    (t0 + ttl ≤ t1 → (∃ q ∈ tr, q.2.isSweep = true ∧ t0 + ttl ≤ q.1) →
      (s.GetString (runCalls s (s.SetString d t0 k v ttl).2 tr) t1 k).1 =
        .error (.wrapf "GetString " k (.sentinel .ErrNotFound))) := by
  have hne0 : ttl ≠ 0 := ne_of_gt httl
  have hex : t0 + ttl ≠ 0 := ne_of_gt (add_pos_of_nonneg_of_pos hclock httl)
  have hset := setString_of_valid s d t0 k v ttl hk hv
  simp only [if_neg hne0] at hset
  have hlook := runCalls_frame s k tr (s.SetString d t0 k v ttl).2 hquiet
  rw [hset] at hlook ⊢
  simp only [mapLookup_mapAssign_self] at hlook
  have hkeep : (∀ q ∈ tr, q.2.isSweep = true → q.1 < t0 + ttl) →
      (tr.all fun q =>
        !q.2.isSweep || decide (Live ⟨.TypeString, v, [], t0 + ttl⟩ q.1)) = true := by
    intro hall
    rw [List.all_eq_true]
    intro q hq
    cases hsw : q.2.isSweep with
    | false => rfl
    | true =>
      have : Live ⟨.TypeString, v, [], t0 + ttl⟩ q.1 := Or.inr (hall q hq hsw)
      simp [this]
  refine ⟨rfl, ?_, ?_, ?_⟩
  · intro hlt
    have hall := hkeep (fun q hq _ => lt_of_le_of_lt (htime q hq) hlt)
    simp only [Option.filter, hall, if_true] at hlook
    rw [getString_of_live_string s _ t1 k v [] (t0 + ttl) hk hlook (Or.inr hlt)]
  · intro hge hall
    simp only [Option.filter, hkeep hall, if_true] at hlook
    rw [getString_of_expired s _ t1 k _ hk hlook hex hge]
  · rintro - ⟨q, hq, hsw, hqt⟩
    have hnot : (tr.all fun q =>
        !q.2.isSweep || decide (Live ⟨.TypeString, v, [], t0 + ttl⟩ q.1)) = false := by
      rw [List.all_eq_false]
      refine ⟨q, hq, ?_⟩
      have hnl : ¬ Live ⟨.TypeString, v, [], t0 + ttl⟩ q.1 := by
        rintro (hl | hl)
        · exact hex hl
        · exact absurd hl (not_lt.mpr hqt)
      simp [hsw, hnl]
    simp only [Option.filter, hnot] at hlook
    rw [getString_of_absent s _ t1 k hk hlook]

/-- SetString "foo" "bar" with ttl 1000 at time 5: a read at 900 after an
early tick returns "bar"; a read at 1500 with only that early tick fails
with ErrExpiredEntry; a read at 1500 after a tick at 1200 fails with
ErrNotFound. -/
theorem setString_then_getString_witness :
    ((StoreService.mk 1000).GetString
        (runCalls ⟨1000⟩ ((StoreService.mk 1000).SetString ⟨[]⟩ 5 "foo" "bar" 1000).2
          [(15, .sweep)]) 900 "foo").1 = .ok "bar" ∧
    ((StoreService.mk 1000).GetString
        (runCalls ⟨1000⟩ ((StoreService.mk 1000).SetString ⟨[]⟩ 5 "foo" "bar" 1000).2
          [(15, .sweep)]) 1500 "foo").1 =
      .error (.wrapf "GetString " "foo" (.sentinel .ErrExpiredEntry)) ∧
    ((StoreService.mk 1000).GetString
        (runCalls ⟨1000⟩ ((StoreService.mk 1000).SetString ⟨[]⟩ 5 "foo" "bar" 1000).2
          [(15, .sweep), (1200, .sweep)]) 1500 "foo").1 =
      .error (.wrapf "GetString " "foo" (.sentinel .ErrNotFound)) :=
  ⟨(setString_then_getString ⟨1000⟩ ⟨[]⟩ "foo" "bar" 1000 5 900 [(15, .sweep)]
      (by decide) (by decide) (by decide) (by decide) (by decide) (by decide)).2.1 (by decide),
    (setString_then_getString ⟨1000⟩ ⟨[]⟩ "foo" "bar" 1000 5 1500 [(15, .sweep)]
      (by decide) (by decide) (by decide) (by decide) (by decide) (by decide)).2.2.1
      (by decide) (by decide),
    (setString_then_getString ⟨1000⟩ ⟨[]⟩ "foo" "bar" 1000 5 1500 [(15, .sweep), (1200, .sweep)]
      (by decide) (by decide) (by decide) (by decide) (by decide) (by decide)).2.2.2
      (by decide) ⟨(1200, .sweep), by decide, by decide, by decide⟩⟩

/-! ## Failures of the list and string operations -/

/-- C7: on a non-empty key holding a live entry, GetString fails with
ErrWrongType when the entry is a List, and LPush and RPop fail with
ErrWrongType when it is a String; the store is the same afterwards. -/
theorem wrong_type_rejected (s : StoreService) (d : Data) (now : Time) (k : String)
    (items : List String) (e : Entry)
    (hk : k ≠ "") (hl : mapLookup d.data k = some e) (hlive : Live e now) :
    (e.Typ = .TypeList →
      s.GetString d now k =
        (.error (.wrapf "GetString: " k (.sentinel .ErrWrongType)), d) ∧
      failsWith (s.GetString d now k).1 .ErrWrongType = true) ∧
    (e.Typ = .TypeString →
      s.LPush d now k items = (.error (.wrapf "LPush: " k (.sentinel .ErrWrongType)), d) ∧
      failsWith (s.LPush d now k items).1 .ErrWrongType = true ∧
      s.RPop d now k = (.error (.wrapf "RPop: " k (.sentinel .ErrWrongType)), d) ∧
      failsWith (s.RPop d now k).1 .ErrWrongType = true) := by
  have hg := get_of_live d now k e hl hlive
  constructor
  · intro ht
    have h1 : s.GetString d now k =
        (.error (.wrapf "GetString: " k (.sentinel .ErrWrongType)), d) := by
      simp [StoreService.GetString, hk, hg, ht]
    exact ⟨h1, by rw [h1]; rfl⟩
  · intro ht
    have h1 : s.LPush d now k items =
        (.error (.wrapf "LPush: " k (.sentinel .ErrWrongType)), d) := by
      simp [StoreService.LPush, hk, hg, ht]
    have h2 : s.RPop d now k =
        (.error (.wrapf "RPop: " k (.sentinel .ErrWrongType)), d) := by
      simp [StoreService.RPop, hk, hg, ht]
    exact ⟨h1, by rw [h1]; rfl, h2, by rw [h2]; rfl⟩

/-- GetString on a live list, and LPush and RPop on a live string, fail with
ErrWrongType and leave the store as it was. -/
theorem wrong_type_rejected_witness :
    (StoreService.mk 10).GetString ⟨[("l", ⟨.TypeList, "", ["a"], 15⟩)]⟩ 5 "l" =
      (.error (.wrapf "GetString: " "l" (.sentinel .ErrWrongType)),
        ⟨[("l", ⟨.TypeList, "", ["a"], 15⟩)]⟩) ∧
    (StoreService.mk 10).LPush ⟨[("s", ⟨.TypeString, "v", [], 15⟩)]⟩ 5 "s" ["x"] =
      (.error (.wrapf "LPush: " "s" (.sentinel .ErrWrongType)),
        ⟨[("s", ⟨.TypeString, "v", [], 15⟩)]⟩) ∧
    (StoreService.mk 10).RPop ⟨[("s", ⟨.TypeString, "v", [], 15⟩)]⟩ 5 "s" =
      (.error (.wrapf "RPop: " "s" (.sentinel .ErrWrongType)),
        ⟨[("s", ⟨.TypeString, "v", [], 15⟩)]⟩) :=
  have h1 := (wrong_type_rejected ⟨10⟩ ⟨[("l", ⟨.TypeList, "", ["a"], 15⟩)]⟩ 5 "l" []
    ⟨.TypeList, "", ["a"], 15⟩ (by decide) (by decide) (by decide)).1 rfl
  have h2 := (wrong_type_rejected ⟨10⟩ ⟨[("s", ⟨.TypeString, "v", [], 15⟩)]⟩ 5 "s" ["x"]
    ⟨.TypeString, "v", [], 15⟩ (by decide) (by decide) (by decide)).2 rfl
  ⟨h1.1, h2.1, h2.2.2.1⟩

/-- C9: RPop on the empty key fails with ErrEmptyKey; on a non-empty key it
fails with ErrNotFound when the key is absent, with ErrExpiredEntry when the
entry has a non-zero expiry not after `now`, and with ErrEmptyEntry when the
key holds a live List entry without items. Each failure carries no value and
leaves the store as it was. -/
theorem rpop_failure_modes (s : StoreService) (d : Data) (now : Time) :
    (s.RPop d now "" = (.error (.wrapf "RPop: " "" (.sentinel .ErrEmptyKey)), d) ∧
      failsWith (s.RPop d now "").1 .ErrEmptyKey = true) ∧
    ∀ k : String, k ≠ "" →
      (mapLookup d.data k = none →
        s.RPop d now k = (.error (.wrapf "RPop " k (.sentinel .ErrNotFound)), d) ∧
        failsWith (s.RPop d now k).1 .ErrNotFound = true) ∧
      (∀ e, mapLookup d.data k = some e → e.Expiry ≠ 0 → e.Expiry ≤ now →
        s.RPop d now k = (.error (.wrapf "RPop " k (.sentinel .ErrExpiredEntry)), d) ∧
        failsWith (s.RPop d now k).1 .ErrExpiredEntry = true) ∧
      (∀ e, mapLookup d.data k = some e → Live e now → e.Typ = .TypeList → e.Items = [] →
        s.RPop d now k = (.error (.sentinel .ErrEmptyEntry), d) ∧
        failsWith (s.RPop d now k).1 .ErrEmptyEntry = true) := by
  have h0 : s.RPop d now "" = (.error (.wrapf "RPop: " "" (.sentinel .ErrEmptyKey)), d) := by
    simp [StoreService.RPop]
  refine ⟨⟨h0, by rw [h0]; rfl⟩, fun k hk => ⟨?_, ?_, ?_⟩⟩
  · intro habs
    have h1 : s.RPop d now k = (.error (.wrapf "RPop " k (.sentinel .ErrNotFound)), d) := by
      simp [StoreService.RPop, hk, get_of_absent d now k habs]
    exact ⟨h1, by rw [h1]; rfl⟩
  · intro e hl hz hle
    have h1 : s.RPop d now k =
        (.error (.wrapf "RPop " k (.sentinel .ErrExpiredEntry)), d) := by
      simp [StoreService.RPop, hk, get_of_expired d now k e hl hz hle]
    exact ⟨h1, by rw [h1]; rfl⟩
  · intro e hl hlive ht hi
    have h1 : s.RPop d now k = (.error (.sentinel .ErrEmptyEntry), d) := by
      simp [StoreService.RPop, hk, get_of_live d now k e hl hlive, ht, hi]
    exact ⟨h1, by rw [h1]; rfl⟩

/-- RPop fails with ErrNotFound on a missing key, with ErrExpiredEntry on an
expired one and with ErrEmptyEntry on a live empty list, the store kept. -/
theorem rpop_failure_modes_witness :
    (StoreService.mk 10).RPop ⟨[("l", ⟨.TypeList, "", [], 15⟩)]⟩ 5 "missing" =
      (.error (.wrapf "RPop " "missing" (.sentinel .ErrNotFound)),
        ⟨[("l", ⟨.TypeList, "", [], 15⟩)]⟩) ∧
    (StoreService.mk 10).RPop ⟨[("l", ⟨.TypeList, "", [], 15⟩)]⟩ 15 "l" =
      (.error (.wrapf "RPop " "l" (.sentinel .ErrExpiredEntry)),
        ⟨[("l", ⟨.TypeList, "", [], 15⟩)]⟩) ∧
    (StoreService.mk 10).RPop ⟨[("l", ⟨.TypeList, "", [], 15⟩)]⟩ 5 "l" =
      (.error (.sentinel .ErrEmptyEntry), ⟨[("l", ⟨.TypeList, "", [], 15⟩)]⟩) :=
  ⟨(((rpop_failure_modes ⟨10⟩ ⟨[("l", ⟨.TypeList, "", [], 15⟩)]⟩ 5).2 "missing"
      (by decide)).1 (by decide)).1,
    (((rpop_failure_modes ⟨10⟩ ⟨[("l", ⟨.TypeList, "", [], 15⟩)]⟩ 15).2 "l"
      (by decide)).2.1 ⟨.TypeList, "", [], 15⟩ (by decide) (by decide) (by decide)).1,
    (((rpop_failure_modes ⟨10⟩ ⟨[("l", ⟨.TypeList, "", [], 15⟩)]⟩ 5).2 "l"
      (by decide)).2.2 ⟨.TypeList, "", [], 15⟩ (by decide) (by decide) rfl rfl).1⟩

/-! ## Validation and the store writes -/

theorem mapDelete_idem (m : GoMap) (k : String) :
    mapDelete (mapDelete m k) k = mapDelete m k := by
  induction m with
  | nil => rfl
  | cons p rest ih =>
    obtain ⟨k0, e0⟩ := p
    by_cases h : k0 = k
    · simp [mapDelete, h, ih]
    · simp [mapDelete, h, ih]

theorem get_result_congr (d1 d2 : Data) (now : Time) (k : String)
    (h : mapLookup d1.data k = mapLookup d2.data k) :
    (d1.Get now k).1 = (d2.Get now k).1 := by
  unfold Data.Get
  rw [h]
  cases mapLookup d2.data k with
  | none => rfl
  | some e => by_cases hl : Live e now <;> simp [liveb_iff, hl]

/-- C11: SetString on the empty key fails with ErrEmptyKey for every value
and ttl, and on a non-empty key with the empty value it fails with
ErrEmptyValue for every ttl; the store is the same afterwards. -/
theorem setString_validates_inputs (s : StoreService) (d : Data) (now : Time)
    (value : String) (ttl : Duration) :
    (s.SetString d now "" value ttl =
        (.error (.wrapf "SetString: " "" (.sentinel .ErrEmptyKey)), d) ∧
      failsWith (s.SetString d now "" value ttl).1 .ErrEmptyKey = true) ∧
    ∀ k : String, k ≠ "" →
      s.SetString d now k "" ttl =
        (.error (.wrapf "SetString " k (.sentinel .ErrEmptyValue)), d) ∧
      failsWith (s.SetString d now k "" ttl).1 .ErrEmptyValue = true := by
  have h0 : s.SetString d now "" value ttl =
      (.error (.wrapf "SetString: " "" (.sentinel .ErrEmptyKey)), d) := by
    simp [StoreService.SetString]
  refine ⟨⟨h0, by rw [h0]; rfl⟩, fun k hk => ?_⟩
  have h1 : s.SetString d now k "" ttl =
      (.error (.wrapf "SetString " k (.sentinel .ErrEmptyValue)), d) := by
    simp [StoreService.SetString, hk]
  exact ⟨h1, by rw [h1]; rfl⟩

/-- SetString of the empty value on the key "k" fails with ErrEmptyValue and
keeps the store. -/
theorem setString_validates_inputs_witness :
    (StoreService.mk 10).SetString ⟨[("k", ⟨.TypeString, "old", [], 50⟩)]⟩ 5 "k" "" 7 =
      (.error (.wrapf "SetString " "k" (.sentinel .ErrEmptyValue)),
        ⟨[("k", ⟨.TypeString, "old", [], 50⟩)]⟩) :=
  ((setString_validates_inputs ⟨10⟩ ⟨[("k", ⟨.TypeString, "old", [], 50⟩)]⟩ 5 "" 7).2 "k"
    (by decide)).1

/-- C12: Set on the empty key fails with ErrEmptyKey for every entry, nil or
not, and Set of the nil entry on a non-empty key fails with ErrEmptyEntry;
the store returned is the one received. -/
theorem set_validates_inputs (d : Data) :
    (∀ e : Option Entry, d.Set "" e = (.error (.sentinel .ErrEmptyKey), d)) ∧
    ∀ k : String, k ≠ "" → d.Set k none = (.error (.sentinel .ErrEmptyEntry), d) := by
  refine ⟨fun e => ?_, fun k hk => ?_⟩
  · simp [Data.Set]
  · simp [Data.Set, hk]

/-- Set of the nil entry on the key "k" fails with ErrEmptyEntry and keeps
the map. -/
theorem set_validates_inputs_witness :
    (Data.mk [("k", ⟨.TypeString, "old", [], 50⟩)]).Set "k" none =
      (.error (.sentinel .ErrEmptyEntry), ⟨[("k", ⟨.TypeString, "old", [], 50⟩)]⟩) :=
  (set_validates_inputs ⟨[("k", ⟨.TypeString, "old", [], 50⟩)]⟩).2 "k" (by decide)

/-- C13: Set of a non-nil entry on a non-empty key succeeds whether or not
the key was bound, and binds the key to that entry: Get of the key returns
exactly the entry at every time at which it is not expired, and every other
key has the binding, and the Get result, it had before. -/
theorem set_binds_key_only (d : Data) (k : String) (e : Entry) (hk : k ≠ "") :
    (d.Set k (some e)).1 = .ok () ∧
    mapLookup (d.Set k (some e)).2.data k = some e ∧
    (∀ now : Time, (e.Expiry = 0 ∨ now < e.Expiry) →
      (d.Set k (some e)).2.Get now k = (.ok e, (d.Set k (some e)).2)) ∧
    ∀ k1 : String, k1 ≠ k →
      mapLookup (d.Set k (some e)).2.data k1 = mapLookup d.data k1 ∧
      ∀ now : Time, ((d.Set k (some e)).2.Get now k1).1 = (d.Get now k1).1 := by
  have hs := set_of_nonempty d k e hk
  have hself : mapLookup (d.Set k (some e)).2.data k = some e := by
    rw [hs]; exact mapLookup_mapAssign_self _ _ _
  refine ⟨by rw [hs], hself, fun now hl => get_of_live _ now k e hself hl, fun k1 hne => ?_⟩
  have hother : mapLookup (d.Set k (some e)).2.data k1 = mapLookup d.data k1 := by
    rw [hs]; exact mapLookup_mapAssign_ne _ _ hne
  exact ⟨hother, fun now => get_result_congr _ d now k1 hother⟩

/-- Set over an expired list at "k" binds "k" to the new string entry, which
Get returns, and leaves "o" bound as before. -/
theorem set_binds_key_only_witness :
    ((Data.mk [("k", ⟨.TypeList, "", ["a"], 3⟩), ("o", ⟨.TypeString, "w", [], 50⟩)]).Set "k"
        (some ⟨.TypeString, "v", [], 20⟩)).2.Get 5 "k" =
      (.ok ⟨.TypeString, "v", [], 20⟩,
        ((Data.mk [("k", ⟨.TypeList, "", ["a"], 3⟩), ("o", ⟨.TypeString, "w", [], 50⟩)]).Set
          "k" (some ⟨.TypeString, "v", [], 20⟩)).2) ∧
    mapLookup ((Data.mk [("k", ⟨.TypeList, "", ["a"], 3⟩),
        ("o", ⟨.TypeString, "w", [], 50⟩)]).Set "k" (some ⟨.TypeString, "v", [], 20⟩)).2.data
      "o" = some ⟨.TypeString, "w", [], 50⟩ :=
  have h := set_binds_key_only
    ⟨[("k", ⟨.TypeList, "", ["a"], 3⟩), ("o", ⟨.TypeString, "w", [], 50⟩)]⟩ "k"
    ⟨.TypeString, "v", [], 20⟩ (by decide)
  ⟨h.2.2.1 5 (by decide), (h.2.2.2 "o" (by decide)).1⟩

/-- C14: Remove, and DeleteString over it, fail with ErrEmptyKey exactly on
the empty key. On a non-empty key they succeed whatever the key held; Get of
the key then fails with ErrNotFound, every other key keeps its binding, and a
second Remove succeeds and leaves the map the first one left. -/
theorem remove_is_idempotent (s : StoreService) (d : Data) (key : String) :
    (failsWith (d.Remove key).1 .ErrEmptyKey = true ↔ key = "") ∧
    (failsWith (s.DeleteString d key).1 .ErrEmptyKey = true ↔ key = "") ∧
    (key ≠ "" →
      (d.Remove key).1 = .ok () ∧
      s.DeleteString d key = (.ok (), (d.Remove key).2) ∧
      (∀ now : Time,
        (d.Remove key).2.Get now key = (.error (.sentinel .ErrNotFound), (d.Remove key).2)) ∧
      (∀ k1 : String, k1 ≠ key →
        mapLookup (d.Remove key).2.data k1 = mapLookup d.data k1) ∧
      (d.Remove key).2.Remove key = (.ok (), (d.Remove key).2)) := by
  by_cases hk : key = ""
  · subst hk
    refine ⟨?_, ?_, fun h => absurd rfl h⟩
    · simp [Data.Remove, failsWith, errorsIs]
    · simp [StoreService.DeleteString, failsWith, errorsIs]
  · have hr : d.Remove key = (.ok (), ⟨mapDelete d.data key⟩) := by
      simp [Data.Remove, hk]
    refine ⟨?_, ?_, fun _ => ⟨by rw [hr], ?_, fun now => ?_, fun k1 hne => ?_, ?_⟩⟩
    · simp [hr, failsWith, hk]
    · simp [StoreService.DeleteString, hr, failsWith, hk]
    · simp [StoreService.DeleteString, hr, hk]
    · rw [hr]
      exact get_of_absent _ now key (mapLookup_mapDelete_self _ _)
    · rw [hr]
      exact mapLookup_mapDelete_ne _ hne
    · rw [hr]
      simp [Data.Remove, hk, mapDelete_idem]

/-- Remove of "k" succeeds, a second Remove succeeds on the same map, and Get
of "k" fails with ErrNotFound while "o" stays bound. -/
theorem remove_is_idempotent_witness :
    ((Data.mk [("k", ⟨.TypeList, "", ["a"], 3⟩), ("o", ⟨.TypeString, "w", [], 50⟩)]).Remove
        "k").2.Remove "k" =
      (.ok (), ⟨[("o", ⟨.TypeString, "w", [], 50⟩)]⟩) ∧
    ((Data.mk [("k", ⟨.TypeList, "", ["a"], 3⟩), ("o", ⟨.TypeString, "w", [], 50⟩)]).Remove
        "k").2.Get 1 "k" =
      (.error (.sentinel .ErrNotFound), ⟨[("o", ⟨.TypeString, "w", [], 50⟩)]⟩) :=
  have h := (remove_is_idempotent ⟨10⟩
    ⟨[("k", ⟨.TypeList, "", ["a"], 3⟩), ("o", ⟨.TypeString, "w", [], 50⟩)]⟩ "k").2.2
    (by decide)
  ⟨h.2.2.2.2, h.2.2.1 1⟩

/-! ## LPush on an expired key -/

/-- C19: on a non-empty key whose entry, of either kind, has a non-zero
expiry not after `now`, LPush fails with an error wrapping ErrExpiredEntry and
returns the store it received. Once a tick of the sweep at or after the
expiry, or DeleteString, has removed the key, the same call succeeds and binds
the key to a fresh list of the items. -/
theorem lpush_on_expired_key_fails (s : StoreService) (d : Data) (now : Time) (k : String)
    (items : List String) (e : Entry)
    (hk : k ≠ "") (hl : mapLookup d.data k = some e) (h0 : e.Expiry ≠ 0)
    (h1 : e.Expiry ≤ now) :
    s.LPush d now k items =
      (.error (.wrapf "LPush: " k (.sentinel .ErrExpiredEntry)), d) ∧
    failsWith (s.LPush d now k items).1 .ErrExpiredEntry = true ∧
    (∀ t later : Time, e.Expiry ≤ t →
      (s.LPush (d.invalidate t) later k items).1 = .ok () ∧
      mapLookup (s.LPush (d.invalidate t) later k items).2.data k =
        some ⟨.TypeList, "", items, later + s.defaultTTL⟩) ∧
    (∀ later : Time,
      (s.LPush (s.DeleteString d k).2 later k items).1 = .ok () ∧
      mapLookup (s.LPush (s.DeleteString d k).2 later k items).2.data k =
        some ⟨.TypeList, "", items, later + s.defaultTTL⟩) := by
  have hfail : s.LPush d now k items =
      (.error (.wrapf "LPush: " k (.sentinel .ErrExpiredEntry)), d) := by
    simp [StoreService.LPush, hk, get_of_expired d now k e hl h0 h1, errorsIs]
  refine ⟨hfail, by rw [hfail]; rfl, fun t later ht => ?_, fun later => ?_⟩
  · have habs : mapLookup (d.invalidate t).data k = none := by
      have hnl : ¬ Live e t := by
        rintro (h | h)
        · exact h0 h
        · exact absurd h (not_lt.mpr ht)
      rw [mapLookup_invalidate, hl]
      simp [Option.filter, hnl]
    rw [lpush_of_absent s _ later k items hk habs]
    exact ⟨rfl, mapLookup_mapAssign_self _ _ _⟩
  · have habs : mapLookup (s.DeleteString d k).2.data k = none := by
      simp [StoreService.DeleteString, Data.Remove, hk, mapLookup_mapDelete_self]
    rw [lpush_of_absent s _ later k items hk habs]
    exact ⟨rfl, mapLookup_mapAssign_self _ _ _⟩

/-- LPush at time 20 on a string entry expired at 15 fails with
ErrExpiredEntry and keeps the store; after a tick at 16 it creates the
list. -/
theorem lpush_on_expired_key_fails_witness :
    (StoreService.mk 10).LPush ⟨[("k", ⟨.TypeString, "v", [], 15⟩)]⟩ 20 "k" ["a", "b"] =
      (.error (.wrapf "LPush: " "k" (.sentinel .ErrExpiredEntry)),
        ⟨[("k", ⟨.TypeString, "v", [], 15⟩)]⟩) ∧
    mapLookup ((StoreService.mk 10).LPush
        ((Data.mk [("k", ⟨.TypeString, "v", [], 15⟩)]).invalidate 16) 20 "k" ["a", "b"]).2.data
      "k" = some ⟨.TypeList, "", ["a", "b"], 30⟩ :=
  have h := lpush_on_expired_key_fails ⟨10⟩ ⟨[("k", ⟨.TypeString, "v", [], 15⟩)]⟩ 20 "k"
    ["a", "b"] ⟨.TypeString, "v", [], 15⟩ (by decide) (by decide) (by decide) (by decide)
  ⟨h.1, (h.2.2.1 16 20 (by decide)).2⟩

/-! ## TokenAuth -/

theorem cutAtSpace_some (cs a b : List Char) (h : cutAtSpace cs = some (a, b)) :
    cs = a ++ Char.ofNat 32 :: b := by
  induction cs generalizing a with
  | nil => simp [cutAtSpace] at h
  | cons c rest ih =>
    by_cases hc : c = Char.ofNat 32
    · simp only [cutAtSpace, if_pos hc, Option.some.injEq, Prod.mk.injEq] at h
      obtain ⟨ha, hb⟩ := h
      subst ha hb hc
      rfl
    · simp only [cutAtSpace, if_neg hc] at h
      cases hr : cutAtSpace rest with
      | none => simp [hr] at h
      | some p =>
        obtain ⟨a1, b1⟩ := p
        simp only [hr, Option.map_some', Option.some.injEq, Prod.mk.injEq] at h
        obtain ⟨ha, hb⟩ := h
        subst ha hb
        rw [ih a1 hr]
        rfl

theorem cutAtSpace_append (a b : List Char) (ha : ∀ c ∈ a, c ≠ Char.ofNat 32) :
    cutAtSpace (a ++ Char.ofNat 32 :: b) = some (a, b) := by
  induction a with
  | nil => simp [cutAtSpace]
  | cons c rest ih =>
    have hc : c ≠ Char.ofNat 32 := ha c (List.mem_cons_self _ _)
    have hrest : ∀ x ∈ rest, x ≠ Char.ofNat 32 :=
      fun x hx => ha x (List.mem_cons_of_mem _ hx)
    simp [cutAtSpace, hc, ih hrest]

theorem splitN2_bearer (token : String) :
    SplitN2 ("Bearer " ++ token) = ["Bearer", token] := by
  have hdata : ("Bearer " ++ token).data = "Bearer".data ++ Char.ofNat 32 :: token.data := by
    rw [String.data_append]
    rfl
  have hcut := cutAtSpace_append "Bearer".data token.data (by decide)
  simp only [SplitN2, hdata, hcut]

/-- C17: for every expected token and every value of the Authorization
header, TokenAuth calls the wrapped handler exactly when the value is
"Bearer " followed by the expected token; in every other case it replies
itself, with status 401 and the header WWW-Authenticate set to
Bearer realm="restricted". -/
theorem tokenAuth_requires_exact_bearer (expectedToken auth : String) :
    (TokenAuth expectedToken auth = .next ↔ auth = "Bearer " ++ expectedToken) ∧
    (auth ≠ "Bearer " ++ expectedToken →
      ∃ resp, TokenAuth expectedToken auth = .reply resp ∧ resp.status = 401 ∧
        ("WWW-Authenticate", "Bearer realm=\"restricted\"") ∈ resp.headers) := by
  have hback : auth = "Bearer " ++ expectedToken → TokenAuth expectedToken auth = .next := by
    intro h
    subst h
    simp [TokenAuth, splitN2_bearer]
  have hforth : auth ≠ "Bearer " ++ expectedToken →
      ∃ resp, TokenAuth expectedToken auth = .reply resp ∧ resp.status = 401 ∧
        ("WWW-Authenticate", "Bearer realm=\"restricted\"") ∈ resp.headers := by
    intro hne
    have hcond : (SplitN2 auth).length ≠ 2 ∨ (SplitN2 auth).getD 0 "" ≠ "Bearer" ∨
        (SplitN2 auth).getD 1 "" ≠ expectedToken := by
      by_contra hnot
      push_neg at hnot
      obtain ⟨hlen, h0, h1⟩ := hnot
      apply hne
      cases hcut : cutAtSpace auth.data with
      | none => simp [SplitN2, hcut] at hlen
      | some p =>
        obtain ⟨a, b⟩ := p
        simp only [SplitN2, hcut, List.getD_cons_zero, List.getD_cons_succ] at h0 h1
        have hd := cutAtSpace_some auth.data a b hcut
        have ha : a = "Bearer".data := congrArg String.data h0
        have hb : b = expectedToken.data := congrArg String.data h1
        apply String.ext
        rw [hd, ha, hb, String.data_append]
        rfl
    refine ⟨{ status := 401,
              headers := [("WWW-Authenticate", "Bearer realm=\"restricted\""),
                          ("Content-Type", "text/plain; charset=utf-8"),
                          ("X-Content-Type-Options", "nosniff")],
              body := .text "unauthorized\n" }, ?_, rfl, List.mem_cons_self _ _⟩
    simp only [TokenAuth]
    rw [if_pos hcond]
  refine ⟨⟨fun h => ?_, hback⟩, hforth⟩
  by_contra hne
  obtain ⟨resp, hr, -⟩ := hforth hne
  rw [h] at hr
  exact Served.noConfusion hr

/-- The header "Bearer wrong-token" against the token "secret-token" is
answered with 401 and the WWW-Authenticate header; the absent header too. -/
theorem tokenAuth_requires_exact_bearer_witness :
    (∃ resp, TokenAuth "secret-token" "Bearer wrong-token" = .reply resp ∧ resp.status = 401 ∧
      ("WWW-Authenticate", "Bearer realm=\"restricted\"") ∈ resp.headers) ∧
    (∃ resp, TokenAuth "secret-token" "" = .reply resp ∧ resp.status = 401 ∧
      ("WWW-Authenticate", "Bearer realm=\"restricted\"") ∈ resp.headers) ∧
    TokenAuth "a b" "Bearer a b" = .next :=
  ⟨(tokenAuth_requires_exact_bearer "secret-token" "Bearer wrong-token").2 (by decide),
    (tokenAuth_requires_exact_bearer "secret-token" "").2 (by decide),
    (tokenAuth_requires_exact_bearer "a b" "Bearer a b").1.mpr (by decide)⟩

/-! ## The errors of the service -/

theorem setString_error_shape (s : StoreService) (d : Data) (now : Time) (key value : String)
    (ttl : Duration) (err : Error) (h : (s.SetString d now key value ttl).1 = .error err) :
    wrapsFor "SetString" key err = true ∧ isClientError err = true := by
  unfold StoreService.SetString Data.Set at h
  by_cases hk : key = ""
  · simp [hk] at h
    subst h hk
    exact ⟨by decide, by decide⟩
  · by_cases hv : value = ""
    · simp [hk, hv] at h
      subst h
      simp [wrapsFor, isClientError, errorsIs]
    · simp [hk, hv] at h

theorem getString_error_shape (s : StoreService) (d : Data) (now : Time) (key : String)
    (err : Error) (h : (s.GetString d now key).1 = .error err) :
    wrapsFor "GetString" key err = true ∧ isClientError err = true := by
  unfold StoreService.GetString Data.Get at h
  by_cases hk : key = ""
  · simp [hk] at h
    subst h hk
    exact ⟨by decide, by decide⟩
  · cases hl : mapLookup d.data key with
    | none =>
      simp [hk, hl] at h
      subst h
      simp [wrapsFor, isClientError, errorsIs]
    | some e =>
      by_cases hlive : Live e now <;> by_cases ht : e.Typ = .TypeString <;>
        simp [hk, hl, liveb_iff, hlive, ht] at h <;>
        (subst h; simp [wrapsFor, isClientError, errorsIs])

theorem deleteString_error_shape (s : StoreService) (d : Data) (key : String)
    (err : Error) (h : (s.DeleteString d key).1 = .error err) :
    wrapsFor "DeleteString" key err = true ∧ isClientError err = true := by
  unfold StoreService.DeleteString Data.Remove at h
  by_cases hk : key = ""
  · simp [hk] at h
    subst h hk
    exact ⟨by decide, by decide⟩
  · simp [hk] at h

theorem lpush_error_shape (s : StoreService) (d : Data) (now : Time) (key : String)
    (items : List String) (err : Error) (h : (s.LPush d now key items).1 = .error err) :
    wrapsFor "LPush" key err = true ∧ isClientError err = true := by
  unfold StoreService.LPush StoreService.lpushSet Data.Get Data.Set at h
  by_cases hk : key = ""
  · simp [hk] at h
    subst h hk
    exact ⟨by decide, by decide⟩
  · cases hl : mapLookup d.data key with
    | none => simp [hk, hl, errorsIs] at h
    | some e =>
      by_cases hlive : Live e now <;> by_cases ht : e.Typ = .TypeList <;>
        simp [hk, hl, liveb_iff, hlive, ht, errorsIs] at h <;>
        (subst h; simp [wrapsFor, isClientError, errorsIs])

theorem rpop_error_shape (s : StoreService) (d : Data) (now : Time) (key : String)
    (err : Error) (h : (s.RPop d now key).1 = .error err) :
    (wrapsFor "RPop" key err = true ∨ err = .sentinel .ErrEmptyEntry) ∧
      isClientError err = true := by
  unfold StoreService.RPop Data.Get Data.Set at h
  by_cases hk : key = ""
  · simp [hk] at h
    subst h hk
    exact ⟨Or.inl (by decide), by decide⟩
  · cases hl : mapLookup d.data key with
    | none =>
      simp [hk, hl] at h
      subst h
      simp [wrapsFor, isClientError, errorsIs]
    | some e =>
      by_cases hlive : Live e now <;> by_cases ht : e.Typ = .TypeList <;>
        by_cases hn : e.Items = [] <;>
        simp [hk, hl, liveb_iff, hlive, ht, hn] at h <;>
        (subst h; simp [wrapsFor, isClientError, errorsIs])

/-- Every error of SetString, GetString, DeleteString and LPush is a wrapped
error naming the operation and the key; an error of RPop is one too, or it is
the unwrapped ErrEmptyEntry. -/
theorem service_errors_wrapped_but_one (s : StoreService) (d : Data) (now : Time)
    (key value : String) (ttl : Duration) (items : List String) (err : Error) :
    ((s.SetString d now key value ttl).1 = .error err → wrapsFor "SetString" key err = true) ∧
    ((s.GetString d now key).1 = .error err → wrapsFor "GetString" key err = true) ∧
    ((s.DeleteString d key).1 = .error err → wrapsFor "DeleteString" key err = true) ∧
    ((s.LPush d now key items).1 = .error err → wrapsFor "LPush" key err = true) ∧
    ((s.RPop d now key).1 = .error err →
      wrapsFor "RPop" key err = true ∨ err = .sentinel .ErrEmptyEntry) :=
  ⟨fun h => (setString_error_shape s d now key value ttl err h).1,
    fun h => (getString_error_shape s d now key err h).1,
    fun h => (deleteString_error_shape s d key err h).1,
    fun h => (lpush_error_shape s d now key items err h).1,
    fun h => (rpop_error_shape s d now key err h).1⟩

/-- C15: RPop on a key holding a live List entry without items returns the
sentinel ErrEmptyEntry itself, not an error that wraps it with the operation
name and the key. -/
theorem rpop_empty_list_error_is_bare :
    ((StoreService.mk 10).RPop ⟨[("l", ⟨.TypeList, "", [], 15⟩)]⟩ 5 "l").1 =
      .error (.sentinel .ErrEmptyEntry) ∧
    wrapsFor "RPop" "l" (.sentinel .ErrEmptyEntry) = false ∧
    ((StoreService.mk 10).RPop ⟨[("l", ⟨.TypeList, "", [], 15⟩)]⟩ 5 "missing").1 =
      .error (.wrapf "RPop " "missing" (.sentinel .ErrNotFound)) ∧
    wrapsFor "RPop" "missing" (.wrapf "RPop " "missing" (.sentinel .ErrNotFound)) = true := by
  decide

/-! ## The status of a failed call -/

end DataStore
